import Mathlib

/-!
Verification development for the family-tree visualizer's relationship-graph
layout engine.

The definitions below are a shallow embedding of the client-side layout and
rendering code:

* `buildMaps`, `layoutUnitFuel`, `getSpouseGroup`, `autoAlignTyped`,
  `autoAlignJs` embed `handleAutoAlign` from
  `client/src/hooks/use-family-tree.ts` (the auto-align layout engine);
* `parentsResolved`, `relAnchors`, `renderPass` embed the relationship
  drawing pass of `client/src/components/family-tree-canvas.tsx`;
* `statsRun` embeds `calculateStats` from
  `client/src/components/sidebar-controls.tsx`;
* `agFuel`, `orphanStep`, `orphanLoop` embed the generation assignment of the
  older auto-align variant (the page component using `rel.type === 'parent'`).

Canvas coordinates are rationals (the JavaScript numbers that arise here are
produced by +, *, /2 on small integers, so ℚ models them exactly).  Recursion
that is not structurally terminating in the source (the layout recursion has
no visited set) is modelled with an explicit fuel parameter; `none` means the
computation did not finish within the given fuel.
-/

/-- A family member as the layout engine sees it: an id and a 2-D position. -/
structure Member where
  id : Nat
  x : ℚ
  y : ℚ
  deriving Repr, DecidableEq

/-- A relationship record: ordered pair of member ids, a type string
(`"parent-child"`, `"spouse"`, ...) and an optional status. -/
structure Relationship where
  fromMemberId : Nat
  toMemberId : Nat
  type : String
  status : Option String
  deriving Repr, DecidableEq

/-- Shorthand for a parent-child relationship record. -/
def pcRel (a b : Nat) : Relationship := ⟨a, b, "parent-child", none⟩

/-- Shorthand for a spouse relationship record. -/
def spRel (a b : Nat) (st : Option String) : Relationship := ⟨a, b, "spouse", st⟩

/-- An adjacency map keyed by member id (a JS `Record<number, number[]>`). -/
abbrev AdjMap := List (Nat × List Nat)

/-- JS property lookup `map[k]`; `none` is JS `undefined`. -/
def mget (m : AdjMap) (k : Nat) : Option (List Nat) :=
  (m.find? (fun e => e.1 == k)).map (fun e => e.2)

/-- Lookup defaulting to the empty list (used only where the source is
guaranteed to look up an initialized key). -/
def mgetD (m : AdjMap) (k : Nat) : List Nat :=
  (mget m k).getD []

/-- JS `map[k].push(v)` on an existing key `k`. -/
def mpush (m : AdjMap) (k : Nat) (v : Nat) : AdjMap :=
  m.map (fun e => if e.1 == k then (e.1, e.2 ++ [v]) else e)

/-- The three adjacency maps built by `handleAutoAlign`. -/
structure Maps where
  children : AdjMap
  parents : AdjMap
  spouses : AdjMap
  deriving Repr, DecidableEq

/-- One step of the relationship loop building the maps
(`relationships.forEach` in `handleAutoAlign`).  Indexing a JS record at a
key that was never initialized yields `undefined` and the subsequent `.push`
raises a `TypeError`, so a parent-child or spouse record whose endpoint is
not a known member id aborts the whole pass: that is the `none` case. -/
def buildStep (mp : Maps) (r : Relationship) : Option Maps :=
  if r.type == "parent-child" then
    match mget mp.children r.fromMemberId with
    | none => none
    | some _ =>
      let mp := { mp with children := mpush mp.children r.fromMemberId r.toMemberId }
      match mget mp.parents r.toMemberId with
      | none => none
      | some _ => some { mp with parents := mpush mp.parents r.toMemberId r.fromMemberId }
  else if r.type == "spouse" then
    match mget mp.spouses r.fromMemberId with
    | none => none
    | some _ =>
      let mp := { mp with spouses := mpush mp.spouses r.fromMemberId r.toMemberId }
      match mget mp.spouses r.toMemberId with
      | none => none
      | some _ => some { mp with spouses := mpush mp.spouses r.toMemberId r.fromMemberId }
  else some mp

/-- The adjacency maps, initialized with an empty list per member id and then
filled in from the relationship list. -/
def buildMaps (members : List Member) (rels : List Relationship) : Option Maps :=
  let init : AdjMap := members.map (fun m => (m.id, []))
  rels.foldlM buildStep ⟨init, init, init⟩

/-- Mutable layout state closed over by `layoutUnit`: the position record
(kept as the list of assignments, later entries overwrite earlier ones) and
the global horizontal cursor `nextX`. -/
structure LSt where
  positions : List (Nat × ℚ × ℚ)
  nextX : ℚ
  deriving Repr, DecidableEq

/-- JS `Array.from(new Set(l))` — first occurrence of each element, in order. -/
def dedupFirst (l : List Nat) : List Nat :=
  l.foldl (fun acc x => if acc.contains x then acc else acc ++ [x]) []

/-- The shared children of a parent cluster (`layoutUnit`, first block):
one parent contributes all its parent-child targets; several parents
contribute the children recorded for every one of them. -/
def sharedChildren (cm : AdjMap) (parents : List Nat) : List Nat :=
  if parents.length == 1 then mgetD cm (parents.headD 0)
  else if 1 < parents.length then
    (dedupFirst (parents.flatMap (fun pid => mgetD cm pid))).filter
      (fun cid => parents.all (fun pid => (mgetD cm pid).contains cid))
  else []

/-- The depth-first walk of `getSpouseGroup`: visited set `group`, neighbor
lists from the spouses map.  Fuel bounds the recursion depth. -/
def sgDfs (sm : AdjMap) : Nat → List Nat → Nat → Option (List Nat)
  | 0, _, _ => none
  | f + 1, group, id =>
    if group.contains id then some group
    else (mgetD sm id).foldlM (fun g nid => sgDfs sm f g nid) (group ++ [id])

/-- Insert into a sorted list of naturals. -/
def insNat (x : Nat) : List Nat → List Nat
  | [] => [x]
  | y :: ys => if x ≤ y then x :: y :: ys else y :: insNat x ys

/-- Sort ascending (the `sort((a, b) => a - b)` of `getSpouseGroup`). -/
def sortNat (l : List Nat) : List Nat :=
  l.foldl (fun acc x => insNat x acc) []

/-- The source's `getSpouseGroup(memberId)`: transitive closure over spouse edges, sorted
ascending by id for determinism. -/
def getSpouseGroup (sm : AdjMap) (bound memberId : Nat) : Option (List Nat) :=
  (sgDfs sm bound [] memberId).map sortNat

/-- JS `Math.min(...l)` for a nonempty list (the only way the source uses it). -/
def minQ : List ℚ → ℚ
  | [] => 0
  | x :: xs => xs.foldl min x

/-- JS `Math.max(...l)` for a nonempty list. -/
def maxQ : List ℚ → ℚ
  | [] => 0
  | x :: xs => xs.foldl max x

/-- JS `memberPositions[id].x` — the last assignment wins. -/
def posX (events : List (Nat × ℚ × ℚ)) (id : Nat) : ℚ :=
  match events.reverse.find? (fun e => e.1 == id) with
  | some e => e.2.1
  | none => 0

/-- JS `memberPositions[id].y` — the last assignment wins. -/
def posY (events : List (Nat × ℚ × ℚ)) (id : Nat) : ℚ :=
  match events.reverse.find? (fun e => e.1 == id) with
  | some e => e.2.2
  | none => 0

/-- JS `id in memberPositions`. -/
def posMem (events : List (Nat × ℚ × ℚ)) (id : Nat) : Bool :=
  events.any (fun e => e.1 == id)

/-- The recursive layout allocator `layoutUnit(parents, depth)` of
`handleAutoAlign`.  The source recursion carries no visited set, so it need
not terminate; `fuel` bounds the depth of nested `layoutUnit` calls and
`none` reports that the bound was exhausted (the source would still be
recursing).  Returns the unit's center x together with the updated state. -/
def layoutUnitFuel (mp : Maps) (bound : Nat) : Nat → List Nat → Nat → LSt → Option (ℚ × LSt)
  | 0, _, _, _ => none
  | f + 1, parents, depth, st =>
    let children := sharedChildren mp.children parents
    match children.foldlM
        (fun (acc : List ℚ × LSt) c =>
          match getSpouseGroup mp.spouses bound c with
          | none => none
          | some g =>
            match layoutUnitFuel mp bound f g (depth + 1) acc.2 with
            | none => none
            | some (cx, st') => some (acc.1 ++ [cx], st'))
        ([], st) with
    | none => none
    | some (childXs, st1) =>
      let unitWidth : ℚ := (parents.length : ℚ) * 256 + ((parents.length : ℚ) - 1) * 40
      let x : ℚ :=
        if childXs.isEmpty then st1.nextX
        else (minQ childXs + maxQ childXs - unitWidth) / 2 + 256 / 2
      let row : ℚ := (depth : ℚ) * (128 + 80)
      let pos1 := st1.positions ++
        parents.enum.map (fun e => (e.2, (x + (e.1 : ℚ) * (256 + 40), row)))
      let nextX1 : ℚ :=
        if childXs.isEmpty then x + unitWidth + 40
        else max st1.nextX (maxQ childXs + 256 + 40)
      match parents with
      | [] => none
      | p :: _ =>
        let ret :=
          if parents.length == 1 then posX pos1 p
          else (posX pos1 p + posX pos1 (parents.getLastD p)) / 2
        some (ret, ⟨pos1, nextX1⟩)

/-- The fuel/bound `handleAutoAlign` is run with: enough for any acyclic
snapshot (recursion depth is bounded by the number of members). -/
def fuelOf (members : List Member) : Nat := members.length + 2

/-- The auto-align driver under the declared signature of `getSpouseGroup`
(`memberId: number`): each root contributes its spouse group `root.id`, the
group is skipped if any of its members is already placed, and otherwise laid
out with the cursor threaded through.  Returns the final position record. -/
def autoAlignTyped (members : List Member) (rels : List Relationship) :
    Option (List (Nat × ℚ × ℚ)) :=
  match buildMaps members rels with
  | none => none
  | some mp =>
    let roots := members.filter (fun m => (mgetD mp.parents m.id).isEmpty)
    let b := fuelOf members
    let res := roots.foldlM
      (fun (st : LSt) root =>
        match getSpouseGroup mp.spouses b root.id with
        | none => none
        | some group =>
          if group.any (fun id => posMem st.positions id) then some st
          else
            match layoutUnitFuel mp b b group 0 st with
            | none => none
            | some (_, st') => some st')
      ⟨[], 0⟩
    res.map (fun st => st.positions)

/-- The auto-align driver with the dynamic semantics of the source text: the
root loop passes the root member object itself to `getSpouseGroup`, whose
`spousesMap[id]` lookup then misses (the record is keyed by numeric ids), so
the first root raises a `TypeError` that the surrounding `try` swallows.
Hence: no root, empty position record; at least one root, aborted pass. -/
def autoAlignJs (members : List Member) (rels : List Relationship) :
    Option (List (Nat × ℚ × ℚ)) :=
  match buildMaps members rels with
  | none => none
  | some mp =>
    let roots := members.filter (fun m => (mgetD mp.parents m.id).isEmpty)
    if roots.isEmpty then some [] else none

/-- Replace every member's position, keeping ids (used to state that layout
ignores pre-existing coordinates). -/
def reposition (members : List Member) (fx fy : Nat → ℚ) : List Member :=
  members.map (fun m => ⟨m.id, fx m.id, fy m.id⟩)

/-! ## The relationship drawing pass (`family-tree-canvas.tsx`) -/

/-- The resolved parent members of a child: every parent-child record whose
target is the child, mapped through the member list and keeping only the
hits (`drawRelationship`, lines building `parents`). -/
def parentsResolved (members : List Member) (rels : List Relationship)
    (toM : Member) : List Member :=
  (rels.filter (fun r => r.type == "parent-child" && r.toMemberId == toM.id)).filterMap
    (fun r => members.find? (fun m => m.id == r.fromMemberId))

/-- The two anchor points `(fromX, fromY), (toX, toY)` that `drawRelationship`
computes for a relationship between two positioned members (card width 256,
card height 128, arrow offset 5). -/
def relAnchors (members : List Member) (rels : List Relationship)
    (fromM toM : Member) (r : Relationship) : (ℚ × ℚ) × (ℚ × ℚ) :=
  if r.type == "spouse" then
    ((fromM.x + 128, fromM.y + 64), (toM.x + 128, toM.y + 64))
  else if r.type == "parent-child" then
    match parentsResolved members rels toM with
    | [q1, q2] =>
      if (rels.find? (fun s => s.type == "spouse" &&
            ((s.fromMemberId == q1.id && s.toMemberId == q2.id) ||
             (s.fromMemberId == q2.id && s.toMemberId == q1.id)))).isSome ∧
          |q1.y - q2.y| < 20 then
        (((q1.x + 128 + (q2.x + 128)) / 2, max q1.y q2.y + 128),
         (toM.x + 128, toM.y - 5))
      else ((fromM.x + 128, fromM.y + 128), (toM.x + 128, toM.y - 5))
    | _ => ((fromM.x + 128, fromM.y + 128), (toM.x + 128, toM.y - 5))
  else ((fromM.x + 128, fromM.y + 64), (toM.x + 128, toM.y + 64))

/-- The deduplication key
`` `${rel.type}-${Math.min(from, to)}-${Math.max(from, to)}` ``; the numeric
components are kept as numbers (the string encoding is injective in the three
components since the two id segments are digit-only). -/
def relKey (r : Relationship) : String × Nat × Nat :=
  (r.type, min r.fromMemberId r.toMemberId, max r.fromMemberId r.toMemberId)

/-- Both endpoints of the relationship resolve to known members. -/
def resolvable (members : List Member) (r : Relationship) : Bool :=
  (members.find? (fun m => m.id == r.fromMemberId)).isSome &&
  (members.find? (fun m => m.id == r.toMemberId)).isSome

/-- The drawn line for one relationship record, if its endpoints resolve. -/
def drawEntry (members : List Member) (rels : List Relationship)
    (r : Relationship) : Option (Relationship × ((ℚ × ℚ) × (ℚ × ℚ))) :=
  match members.find? (fun m => m.id == r.fromMemberId),
        members.find? (fun m => m.id == r.toMemberId) with
  | some fm, some tm => some (r, relAnchors members rels fm tm r)
  | _, _ => none

/-- One iteration of the drawing loop: skip unresolvable records, then skip
records whose key is already in the `drawnRelationships` set, otherwise draw
and record the key. -/
def renderStep (members : List Member) (rels : List Relationship)
    (acc : List (Relationship × ((ℚ × ℚ) × (ℚ × ℚ))) × List (String × Nat × Nat))
    (r : Relationship) :
    List (Relationship × ((ℚ × ℚ) × (ℚ × ℚ))) × List (String × Nat × Nat) :=
  match drawEntry members rels r with
  | none => acc
  | some entry =>
    if acc.2.contains (relKey r) then acc
    else (acc.1 ++ [entry], acc.2 ++ [relKey r])

/-- The full render pass: the list of drawn lines, in drawing order. -/
def renderPass (members : List Member) (rels : List Relationship) :
    List (Relationship × ((ℚ × ℚ) × (ℚ × ℚ))) :=
  (rels.foldl (renderStep members rels) ([], [])).1

/-! ## Generation assignment -/

/-- Generation-assignment state: the `memberGenerations` record (assignment
events, later entries overwrite earlier ones) and the keys of the
`generations` collection (the set of generation numbers in use). -/
structure GSt where
  mg : List (Nat × Nat)
  gens : List Nat
  deriving Repr, DecidableEq

/-- JS `member.id in memberGenerations`. -/
def genAssigned (st : GSt) (id : Nat) : Bool :=
  st.mg.any (fun e => e.1 == id)

/-- The recursive `assignGeneration` of `calculateStats`
(`sidebar-controls.tsx`): short-circuit on the visited set, record the
generation, recurse over the `parent-child` records out of the member.  Fuel
bounds the recursion depth. -/
def statsAg (rels : List Relationship) :
    Nat → List Nat → GSt → Nat → Nat → Option (List Nat × GSt)
  | 0, _, _, _, _ => none
  | f + 1, visited, st, id, gen =>
    if visited.contains id then some (visited, st)
    else
      let visited := visited ++ [id]
      let st : GSt := ⟨st.mg ++ [(id, gen)],
        if st.gens.contains gen then st.gens else st.gens ++ [gen]⟩
      rels.foldlM
        (fun (acc : List Nat × GSt) r =>
          if r.type == "parent-child" && r.fromMemberId == id then
            statsAg rels f acc.1 acc.2 r.toMemberId (gen + 1)
          else some acc)
        (visited, st)

/-- The ids recorded as having a parent (`hasParent` in `calculateStats`). -/
def statsHasParent (rels : List Relationship) : List Nat :=
  rels.foldl
    (fun s r => if r.type == "parent-child" then s ++ [r.toMemberId] else s) []

/-- The generation computation of `calculateStats`: walk from every root member
(fresh visited set per root).  Members not reached from any root are left
unassigned — `calculateStats` has no orphan handling. -/
def statsRun (members : List Member) (rels : List Relationship) : Option GSt :=
  let roots := members.filter (fun m => !(statsHasParent rels).contains m.id)
  roots.foldlM
    (fun st m =>
      (statsAg rels (members.length + rels.length + 2) [] st m.id 0).map
        (fun p => p.2))
    ⟨[], []⟩

/-- The recursive `assignGeneration` of the older auto-align page component
(the `src/unnamed` variant), which walks `rel.type === 'parent'` records and
also registers each generation number in the `generations` record. -/
def p14Ag (rels : List Relationship) :
    Nat → List Nat → GSt → Nat → Nat → Option (List Nat × GSt)
  | 0, _, _, _, _ => none
  | f + 1, visited, st, id, gen =>
    if visited.contains id then some (visited, st)
    else
      let visited := visited ++ [id]
      let st : GSt := ⟨st.mg ++ [(id, gen)],
        if st.gens.contains gen then st.gens else st.gens ++ [gen]⟩
      rels.foldlM
        (fun (acc : List Nat × GSt) r =>
          if r.type == "parent" && r.fromMemberId == id then
            p14Ag rels f acc.1 acc.2 r.toMemberId (gen + 1)
          else some acc)
        (visited, st)

/-- The `hasParent` set of the older auto-align variant (`'parent'` records). -/
def p14HasParent (rels : List Relationship) : List Nat :=
  rels.foldl
    (fun s r => if r.type == "parent" then s ++ [r.toMemberId] else s) []

/-- The older variant's root walks (fresh visited set per root). -/
def p14RootPhase (members : List Member) (rels : List Relationship) :
    Option GSt :=
  let roots := members.filter (fun m => !(p14HasParent rels).contains m.id)
  roots.foldlM
    (fun st m =>
      (p14Ag rels (members.length + rels.length + 2) [] st m.id 0).map
        (fun p => p.2))
    ⟨[], []⟩

/-- JS `Math.max(...Object.keys(generations).map(Number)) + 1 || 0`: one more
than the largest generation number in use, or `0` when none is in use yet
(`Math.max()` of nothing is `-Infinity`, and `-Infinity + 1 || 0` is `0`). -/
def nextGen (gens : List Nat) : Nat :=
  if gens.isEmpty then 0 else gens.foldl max 0 + 1

/-- Register a generation number (`generations[gen] = []` when missing). -/
def addGen (gens : List Nat) (g : Nat) : List Nat :=
  if gens.contains g then gens else gens ++ [g]

/-- One iteration of the older variant's orphan loop: a member with no
recorded generation is assigned `nextGen` and that number is registered. -/
def orphanStep (st : GSt) (m : Member) : GSt :=
  if genAssigned st m.id then st
  else ⟨st.mg ++ [(m.id, nextGen st.gens)], addGen st.gens (nextGen st.gens)⟩

/-- The older variant's orphan loop over all members. -/
def orphanLoop (members : List Member) (st : GSt) : GSt :=
  members.foldl orphanStep st

/-- The older variant's full generation assignment: root walks, then the
orphan loop. -/
def p14Run (members : List Member) (rels : List Relationship) : Option GSt :=
  (p14RootPhase members rels).map (orphanLoop members)

/-! ## Derived geometric notions used to state the layout claims -/

/-- One breadth step of parent-child reachability. -/
def reachExpand (cm : AdjMap) (s : List Nat) : List Nat :=
  dedupFirst (s ++ s.flatMap (fun a => mgetD cm a))

/-- Iterated reachability. -/
def reachList (cm : AdjMap) : Nat → List Nat → List Nat
  | 0, s => s
  | n + 1, s => reachList cm n (reachExpand cm s)

/-- The strict descendants of a member along parent-child edges (bounded
iteration; a bound of the member count is exact). -/
def descendants (cm : AdjMap) (bound a : Nat) : List Nat :=
  reachList cm bound (mgetD cm a)

/-- Two clusters are ancestrally related if some member of one is a strict
descendant of some member of the other. -/
def clustersRelated (cm : AdjMap) (bound : Nat) (c1 c2 : List Nat) : Bool :=
  c1.any (fun a => c2.any (fun b =>
    (descendants cm bound a).contains b || (descendants cm bound b).contains a))

/-- The horizontal center of a laid-out spouse cluster: midpoint of the first
and last members' card centers. -/
def clusterCenter (events : List (Nat × ℚ × ℚ)) (c : List Nat) : ℚ :=
  (posX events (c.headD 0) + posX events (c.getLastD 0)) / 2 + 128

/-- Half the cluster's width: `(n·256 + (n−1)·40) / 2`. -/
def clusterHalfWidth (c : List Nat) : ℚ :=
  ((c.length : ℚ) * 256 + ((c.length : ℚ) - 1) * 40) / 2

/-- The horizontal span of a cluster: center ± half width. -/
def clusterSpan (events : List (Nat × ℚ × ℚ)) (c : List Nat) : ℚ × ℚ :=
  (clusterCenter events c - clusterHalfWidth c,
   clusterCenter events c + clusterHalfWidth c)

/-- Two closed intervals intersect. -/
def spansIntersect (s1 s2 : ℚ × ℚ) : Prop :=
  max s1.1 s2.1 ≤ min s1.2 s2.2

/-- The claimed two-parent routing, following the specification's words: from
the midpoint of the two parents' bottom edges to the child's top-center. -/
def claimedTwoParentAnchor (p1 p2 child : Member) : (ℚ × ℚ) × (ℚ × ℚ) :=
  (((p1.x + 128 + (p2.x + 128)) / 2, ((p1.y + 128) + (p2.y + 128)) / 2),
   (child.x + 128, child.y))

/-- The targets of the parent-child records out of `p`, in record order:
"all parent-child targets of that member". -/
def pcTargets (rels : List Relationship) (p : Nat) : List Nat :=
  (rels.filter (fun r => r.type == "parent-child" && r.fromMemberId == p)).map
    (fun r => r.toMemberId)

/-- The recorded parents of `c`: the sources of the parent-child records into
`c`, in record order. -/
def pcSources (rels : List Relationship) (c : Nat) : List Nat :=
  (rels.filter (fun r => r.type == "parent-child" && r.toMemberId == c)).map
    (fun r => r.fromMemberId)

/-! ## Concrete snapshots used by the claims -/

/-- Cycle reachable from a root: 1 → 2 → 3 → 2 (parent-child). -/
def cycMembers : List Member := [⟨1, 0, 0⟩, ⟨2, 0, 0⟩, ⟨3, 0, 0⟩]

/-- The relationship records of the reachable-cycle snapshot. -/
def cycRels : List Relationship := [pcRel 1 2, pcRel 2 3, pcRel 3 2]

/-- The adjacency maps of the reachable-cycle snapshot. -/
def cycMaps : Maps :=
  ⟨[(1, [2]), (2, [3]), (3, [2])],
   [(1, []), (2, [1, 3]), (3, [2])],
   [(1, []), (2, []), (3, [])]⟩

/-- The two-parent intersection scenario: A = 1 and B = 2 are spouses, A is a
parent of X = 3 and Y = 4, B is a parent of X only. -/
def abMembers : List Member := [⟨1, 0, 0⟩, ⟨2, 0, 0⟩, ⟨3, 0, 0⟩, ⟨4, 0, 0⟩]

/-- The relationship records of the two-parent intersection scenario. -/
def abRels : List Relationship :=
  [spRel 1 2 (some ("active")), pcRel 1 3, pcRel 1 4, pcRel 2 3]

/-- The positions the layout computes for the intersection scenario: X is
placed once as the shared child of the couple, which is centered above it;
Y gets no position. -/
def abEvents : List (Nat × ℚ × ℚ) :=
  [(3, (0, 208)), (1, (-148, 0)), (2, (148, 0))]

/-- The overlap scenario: a couple 1, 2 with one shared child 3, plus an
unrelated childless root 5. -/
def ovMembers : List Member := [⟨1, 0, 0⟩, ⟨2, 0, 0⟩, ⟨3, 0, 0⟩, ⟨5, 0, 0⟩]

/-- The relationship records of the overlap scenario. -/
def ovRels : List Relationship := [spRel 1 2 (some ("active")), pcRel 1 3, pcRel 2 3]

/-- The positions the layout computes for the overlap scenario. -/
def ovEvents : List (Nat × ℚ × ℚ) :=
  [(3, (0, 208)), (1, (-148, 0)), (2, (148, 0)), (5, (296, 0))]

/-- The children map of the overlap scenario. -/
def ovChildren : AdjMap := [(1, [3]), (2, [3]), (3, []), (5, [])]

/-- A two-member parent-child cycle with no root at all. -/
def cyc2Members : List Member := [⟨1, 0, 0⟩, ⟨2, 0, 0⟩]

/-- The relationship records of the rootless cycle. -/
def cyc2Rels : List Relationship := [pcRel 1 2, pcRel 2 1]

/-- Two members, one valid parent-child record, and one record whose source
id 5 matches no member. -/
def dangMembers : List Member := [⟨1, 0, 0⟩, ⟨2, 0, 0⟩]

/-- The relationship records of the dangling-edge snapshot. -/
def dangRels : List Relationship := [pcRel 1 2, pcRel 5 1]

/-- Two co-parents (an active spousal pair, vertical offset 10, within the
20-pixel alignment tolerance) of one child. -/
def twoPMembers : List Member := [⟨1, 0, 0⟩, ⟨2, 300, 10⟩, ⟨3, 0, 300⟩]

/-- The relationship records of the two-co-parent snapshot. -/
def twoPRels : List Relationship :=
  [pcRel 1 3, pcRel 2 3, spRel 1 2 (some ("active"))]

/-! ## Helper lemmas: concrete runs -/

lemma cyc_buildMaps : buildMaps cycMembers cycRels = some cycMaps := by decide

lemma cyc_layout_none : ∀ f d st,
    layoutUnitFuel cycMaps 5 f [2] d st = none ∧
    layoutUnitFuel cycMaps 5 f [3] d st = none := by
  intro f
  induction f with
  | zero => intro d st; exact ⟨rfl, rfl⟩
  | succ f ih =>
    intro d st
    have h2 : sharedChildren cycMaps.children [2] = [3] := by decide
    have h3 : sharedChildren cycMaps.children [3] = [2] := by decide
    have g2 : getSpouseGroup cycMaps.spouses 5 2 = some [2] := by decide
    have g3 : getSpouseGroup cycMaps.spouses 5 3 = some [3] := by decide
    constructor
    · simp only [layoutUnitFuel, h2, List.foldlM, g3, (ih (d + 1) st).2,
        Option.pure_def, Option.bind_eq_bind, Option.none_bind, Option.some_bind]
    · simp only [layoutUnitFuel, h3, List.foldlM, g2, (ih (d + 1) st).1,
        Option.pure_def, Option.bind_eq_bind, Option.none_bind, Option.some_bind]

lemma ab_layout : autoAlignTyped abMembers abRels = some abEvents := by
  have hmp : buildMaps abMembers abRels =
      some ⟨[(1, [3, 4]), (2, [3]), (3, []), (4, [])],
            [(1, []), (2, []), (3, [1, 2]), (4, [1])],
            [(1, [2]), (2, [1]), (3, []), (4, [])]⟩ := by decide
  have hg1 : getSpouseGroup [(1, [2]), (2, [1]), (3, []), (4, [])] 6 1 =
      some [1, 2] := by decide
  have hg2 : getSpouseGroup [(1, [2]), (2, [1]), (3, []), (4, [])] 6 2 =
      some [1, 2] := by decide
  have hg3 : getSpouseGroup [(1, [2]), (2, [1]), (3, []), (4, [])] 6 3 =
      some [3] := by decide
  simp only [autoAlignTyped, hmp, fuelOf]
  norm_num [abMembers, abRels, abEvents, hg1, hg2, hg3, mget, mgetD,
    layoutUnitFuel, sharedChildren, dedupFirst, minQ, maxQ, posX, posY,
    posMem, List.foldlM, List.enum, List.enumFrom]

lemma ov_layout : autoAlignTyped ovMembers ovRels = some ovEvents := by
  have hmp : buildMaps ovMembers ovRels =
      some ⟨ovChildren,
            [(1, []), (2, []), (3, [1, 2]), (5, [])],
            [(1, [2]), (2, [1]), (3, []), (5, [])]⟩ := by decide
  have hg1 : getSpouseGroup [(1, [2]), (2, [1]), (3, []), (5, [])] 6 1 =
      some [1, 2] := by decide
  have hg2 : getSpouseGroup [(1, [2]), (2, [1]), (3, []), (5, [])] 6 2 =
      some [1, 2] := by decide
  have hg3 : getSpouseGroup [(1, [2]), (2, [1]), (3, []), (5, [])] 6 3 =
      some [3] := by decide
  have hg5 : getSpouseGroup [(1, [2]), (2, [1]), (3, []), (5, [])] 6 5 =
      some [5] := by decide
  simp only [autoAlignTyped, hmp, fuelOf]
  norm_num [ovMembers, ovRels, ovEvents, ovChildren, hg1, hg2, hg3, hg5,
    mget, mgetD, layoutUnitFuel, sharedChildren, dedupFirst, minQ, maxQ,
    posX, posY, posMem, List.foldlM, List.enum, List.enumFrom]

/-! ## Claims -/

/-- C1: the generation assigner is cycle-safe, but the layout allocator is
not: on the snapshot 1 → 2 → 3 → 2 (a parent-child cycle reachable from the
root 1) `layoutUnit` recurses through 2 → 3 → 2 → ... forever — every fuel
bound is exhausted — and hence the auto-align pass itself never finishes
(modelled as `none`).  This contradicts the claim that the layout allocator
terminates on every snapshot. -/
theorem claim_C1_layout_diverges :
    (∀ f st, layoutUnitFuel cycMaps 5 f [1] 0 st = none) ∧
    autoAlignTyped cycMembers cycRels = none := by
  have main : ∀ f st, layoutUnitFuel cycMaps 5 f [1] 0 st = none := by
    intro f st
    cases f with
    | zero => rfl
    | succ f =>
      have h1 : sharedChildren cycMaps.children [1] = [2] := by decide
      have g2 : getSpouseGroup cycMaps.spouses 5 2 = some [2] := by decide
      simp only [layoutUnitFuel, h1, List.foldlM, g2, (cyc_layout_none f 1 st).1,
        Option.pure_def, Option.bind_eq_bind, Option.none_bind, Option.some_bind]
  refine ⟨main, ?_⟩
  have hroots : cycMembers.filter (fun m => (mgetD cycMaps.parents m.id).isEmpty) =
      [⟨1, 0, 0⟩] := by decide
  have hg1 : getSpouseGroup cycMaps.spouses 5 1 = some [1] := by decide
  have hb : fuelOf cycMembers = 5 := by decide
  simp only [autoAlignTyped, cyc_buildMaps, hb, hroots, hg1, List.foldlM,
    posMem, List.any_nil, main 5 ⟨[], 0⟩, Option.pure_def, Option.bind_eq_bind,
    Option.none_bind, Option.some_bind]
  decide

/-- C3 (counterexample): in the snapshot where A = 1 and B = 2 are spouses,
A is a parent of X = 3 and Y = 4, and B is a parent of X only, the layout
does not place Y at all — contradicting the claim that Y is placed under
the cluster {A}. -/
theorem claim_C3_cex :
    (autoAlignTyped abMembers abRels).map (fun ev => posMem ev 4) = some false := by
  rw [ab_layout]; decide

/-- C3 (amended): X is laid out exactly once, but as the shared child of the
couple's cluster {A, B} (the intersection rule keeps X, since both A and B
are recorded parents of X, and drops Y); the couple is centered around X and
Y receives no position.  As written, the driver passes the root member object
where `getSpouseGroup` expects an id, so the source's own auto-align pass
aborts with a `TypeError` and places nothing. -/
theorem claim_C3_amended :
    autoAlignTyped abMembers abRels = some abEvents ∧
    abEvents.countP (fun e => e.1 == 3) = 1 ∧
    posMem abEvents 4 = false ∧
    autoAlignJs abMembers abRels = none :=
  ⟨ab_layout, by decide, by decide, by decide⟩

/-- C4 (counterexample): in the overlap snapshot, the couple cluster {1, 2}
and the childless cluster {5} sit at the same depth (y = 0) and are not
ancestrally related, yet their horizontal spans (center ± half width)
intersect: the couple spans [-148, 404] while {5} spans [296, 552]. -/
theorem claim_C4_cex :
    autoAlignTyped ovMembers ovRels = some ovEvents ∧
    posY ovEvents 1 = 0 ∧ posY ovEvents 5 = 0 ∧
    clustersRelated ovChildren 4 [1, 2] [5] = false ∧
    spansIntersect (clusterSpan ovEvents [1, 2]) (clusterSpan ovEvents [5]) := by
  refine ⟨ov_layout, by norm_num [posY, ovEvents], by norm_num [posY, ovEvents],
    by decide, ?_⟩
  norm_num [spansIntersect, clusterSpan, clusterCenter, clusterHalfWidth,
    posX, ovEvents]

/-- C4 (amended): after a cluster with laid-out children is placed, the
cursor advances only past the children's span (largest child center + card
width + gap), not past the cluster's own width; so the next root cluster 5 is
placed at x = 296 — the child's span end — which is inside the couple's own
span (its right edge is at 404), and the two same-depth unrelated clusters
overlap. -/
theorem claim_C4_amended :
    autoAlignTyped ovMembers ovRels = some ovEvents ∧
    posX ovEvents 5 = posX ovEvents 3 + 256 + 40 ∧
    posX ovEvents 5 < posX ovEvents 2 + 256 ∧
    spansIntersect (clusterSpan ovEvents [1, 2]) (clusterSpan ovEvents [5]) := by
  refine ⟨ov_layout, by norm_num [posX, ovEvents], by norm_num [posX, ovEvents], ?_⟩
  norm_num [spansIntersect, clusterSpan, clusterCenter, clusterHalfWidth,
    posX, ovEvents]

/-! ## C5: generation assignment of orphans -/

lemma foldl_max_init_le (l : List Nat) : ∀ a : Nat, a ≤ l.foldl max a := by
  induction l with
  | nil => intro a; exact Nat.le_refl a
  | cons y ys ih =>
    intro a
    exact Nat.le_trans (Nat.le_max_left a y) (ih (max a y))

lemma mem_le_foldl_max (l : List Nat) : ∀ (a x : Nat), x ∈ l → x ≤ l.foldl max a := by
  induction l with
  | nil => intro a x hx; cases hx
  | cons y ys ih =>
    intro a x hx
    rcases List.mem_cons.mp hx with h | h
    · subst h
      exact Nat.le_trans (Nat.le_max_right a x) (foldl_max_init_le ys (max a x))
    · exact ih (max a y) x h

lemma nextGen_fresh (gens : List Nat) : nextGen gens ∉ gens := by
  unfold nextGen
  by_cases hg : gens.isEmpty
  · rw [if_pos hg]
    rw [List.isEmpty_iff] at hg
    subst hg
    exact List.not_mem_nil 0
  · rw [if_neg hg]
    intro hmem
    have := mem_le_foldl_max gens 0 _ hmem
    omega

lemma genAssigned_orphanStep_mono (st : GSt) (m : Member) (id : Nat)
    (h : genAssigned st id = true) : genAssigned (orphanStep st m) id = true := by
  unfold orphanStep
  split
  · exact h
  · simp only [genAssigned, List.any_append] at h ⊢
    simp [h]

lemma genAssigned_orphanStep_self (st : GSt) (m : Member) :
    genAssigned (orphanStep st m) m.id = true := by
  unfold orphanStep
  split
  · assumption
  · simp [genAssigned, List.any_append]

lemma genAssigned_foldl_mono (ms : List Member) : ∀ (st : GSt) (id : Nat),
    genAssigned st id = true → genAssigned (ms.foldl orphanStep st) id = true := by
  induction ms with
  | nil => intro st id h; exact h
  | cons x xs ih =>
    intro st id h
    exact ih (orphanStep st x) id (genAssigned_orphanStep_mono st x id h)

/-- C5 (counterexample): in the two-member snapshot 1 ⇄ 2 (parent-child both
ways) there is no root, so `calculateStats`' generation assignment never runs
and member 1 is left with no generation — contradicting the claim that every
member of the snapshot is assigned one. -/
theorem claim_C5_cex :
    (statsRun cyc2Members cyc2Rels).map (fun st => genAssigned st 1) =
      some false := by decide

/-- C5 (amended): the sidebar statistics assigner (`calculateStats`) leaves
members unreachable from any root unassigned; the older auto-align variant's
orphan loop is the code that classifies everyone: after it, every member of
the snapshot has a generation, and any member it finds unassigned receives
one more than the largest generation number in use (0 when none is in use),
a number that is not yet in use. -/
theorem claim_C5_amended :
    (∀ (members : List Member) (st : GSt), ∀ m ∈ members,
      genAssigned (orphanLoop members st) m.id = true) ∧
    (∀ (st : GSt) (m : Member), genAssigned st m.id = false →
      (orphanStep st m).mg = st.mg ++ [(m.id, nextGen st.gens)] ∧
      nextGen st.gens ∉ st.gens) := by
  constructor
  · intro members
    induction members with
    | nil => intro st m hm; cases hm
    | cons x xs ih =>
      intro st m hm
      rcases List.mem_cons.mp hm with h | h
      · subst h
        exact genAssigned_foldl_mono xs (orphanStep st m) m.id
          (genAssigned_orphanStep_self st m)
      · exact ih (orphanStep st x) m h
  · intro st m h
    refine ⟨?_, nextGen_fresh st.gens⟩
    simp [orphanStep, h]

/-- C5 witness: a concrete member 9 with no prior assignment is classified by
the orphan loop, and the orphan step hands it the fresh generation number. -/
theorem claim_C5_witness :
    genAssigned (orphanLoop [⟨9, 0, 0⟩] ⟨[], []⟩) 9 = true ∧
    ((orphanStep ⟨[], []⟩ ⟨9, 0, 0⟩).mg = [] ++ [(9, nextGen [])] ∧
      nextGen [] ∉ ([] : List Nat)) :=
  ⟨claim_C5_amended.1 [⟨9, 0, 0⟩] ⟨[], []⟩ ⟨9, 0, 0⟩ (by simp),
   claim_C5_amended.2 ⟨[], []⟩ ⟨9, 0, 0⟩ rfl⟩

/-! ## C6: parent-child anchor geometry -/

lemma find?_isSome_of_mem {α : Type} (p : α → Bool) :
    ∀ (l : List α) (x : α), x ∈ l → p x = true → (l.find? p).isSome = true := by
  intro l
  induction l with
  | nil => intro x hx; cases hx
  | cons y ys ih =>
    intro x hx hp
    rcases List.mem_cons.mp hx with h | h
    · subst h
      simp [List.find?, hp]
    · by_cases hy : p y
      · simp [List.find?, hy]
      · simp only [List.find?, Bool.not_eq_true] at hy ⊢
        rw [hy]
        exact ih x h hp

/-- C6 (counterexample): parents at y = 0 and y = 10 (within the 20-pixel
tolerance) with an active spouse record and a common child at (0, 300): the
drawn line starts at y = 138 — the lower of the two bottom edges — not at the
midpoint (133) of the bottom edges, and it ends 5 pixels above the child's
top-center (295, not 300).  So the claimed anchor rule is false as stated. -/
theorem claim_C6_cex :
    relAnchors twoPMembers twoPRels ⟨1, 0, 0⟩ ⟨3, 0, 300⟩ (pcRel 1 3) =
      ((278, 138), (128, 295)) ∧
    relAnchors twoPMembers twoPRels ⟨1, 0, 0⟩ ⟨3, 0, 300⟩ (pcRel 1 3) ≠
      claimedTwoParentAnchor ⟨1, 0, 0⟩ ⟨2, 300, 10⟩ ⟨3, 0, 300⟩ := by
  have h : relAnchors twoPMembers twoPRels ⟨1, 0, 0⟩ ⟨3, 0, 300⟩ (pcRel 1 3) =
      ((278, 138), (128, 295)) := by
    have hpar : parentsResolved twoPMembers twoPRels ⟨3, 0, 300⟩ =
        [⟨1, 0, 0⟩, ⟨2, 300, 10⟩] := by decide
    simp only [relAnchors, hpar, pcRel]
    norm_num [twoPRels, pcRel, spRel, List.find?]
    decide
  refine ⟨h, ?_⟩
  rw [h]
  norm_num [claimedTwoParentAnchor, Prod.ext_iff]

/-- C6 (amended): for a child with exactly two resolved parents that are an
active spousal pair within the 20-pixel vertical tolerance, the line starts
at the x-midpoint of the parents' bottom centers but at the *lower* (max) of
the two bottom edges, and ends 5 pixels above the child's top-center; for a
single resolved parent it starts at that parent's bottom-center and likewise
ends 5 pixels above the child's top-center. -/
theorem claim_C6_amended :
    (∀ (members : List Member) (rels : List Relationship)
        (fromM toM p1 p2 : Member) (r : Relationship),
      r.type = "parent-child" →
      parentsResolved members rels toM = [p1, p2] →
      (∃ sr ∈ rels, sr.type = "spouse" ∧ sr.status = some ("active") ∧
        ((sr.fromMemberId = p1.id ∧ sr.toMemberId = p2.id) ∨
         (sr.fromMemberId = p2.id ∧ sr.toMemberId = p1.id))) →
      |p1.y - p2.y| < 20 →
      relAnchors members rels fromM toM r =
        (((p1.x + 128 + (p2.x + 128)) / 2, max p1.y p2.y + 128),
         (toM.x + 128, toM.y - 5))) ∧
    (∀ (members : List Member) (rels : List Relationship)
        (fromM toM p : Member) (r : Relationship),
      r ∈ rels → r.type = "parent-child" → r.toMemberId = toM.id →
      members.find? (fun m => m.id == r.fromMemberId) = some fromM →
      parentsResolved members rels toM = [p] →
      relAnchors members rels fromM toM r =
        ((p.x + 128, p.y + 128), (toM.x + 128, toM.y - 5))) := by
  constructor
  · intro members rels fromM toM p1 p2 r hrt hpar hsp habs
    obtain ⟨sr, hmem, hty, _hst, hends⟩ := hsp
    have hsome : (rels.find? (fun s => s.type == "spouse" &&
        ((s.fromMemberId == p1.id && s.toMemberId == p2.id) ||
         (s.fromMemberId == p2.id && s.toMemberId == p1.id)))).isSome = true := by
      refine find?_isSome_of_mem _ rels sr hmem ?_
      rcases hends with ⟨h1, h2⟩ | ⟨h1, h2⟩ <;> simp [hty, h1, h2]
    unfold relAnchors
    rw [hrt, hpar]
    simp only [String.reduceBEq, Bool.false_eq_true, if_false, beq_self_eq_true,
      if_true, reduceIte]
    rw [if_pos ⟨hsome, habs⟩]
  · intro members rels fromM toM p r hmem hrt hto hfind hpar
    have hfp : fromM = p := by
      have hin : fromM ∈ parentsResolved members rels toM := by
        refine List.mem_filterMap.mpr ⟨r, ?_, hfind⟩
        refine List.mem_filter.mpr ⟨hmem, ?_⟩
        simp [hrt, hto]
      rw [hpar] at hin
      exact (List.mem_singleton.mp hin)
    unfold relAnchors
    rw [hrt, hpar, hfp]
    simp

/-- C6 witness: the amended two-parent rule applied at the concrete snapshot
used for the counterexample. -/
theorem claim_C6_witness :
    relAnchors twoPMembers twoPRels ⟨1, 0, 0⟩ ⟨3, 0, 300⟩ (pcRel 1 3) =
      ((((0 : ℚ) + 128 + (300 + 128)) / 2, max (0 : ℚ) 10 + 128),
       ((0 : ℚ) + 128, (300 : ℚ) - 5)) :=
  claim_C6_amended.1 twoPMembers twoPRels ⟨1, 0, 0⟩ ⟨3, 0, 300⟩ ⟨1, 0, 0⟩
    ⟨2, 300, 10⟩ (pcRel 1 3) rfl (by decide)
    ⟨spRel 1 2 (some ("active")), by decide, rfl, rfl, Or.inl ⟨rfl, rfl⟩⟩
    (by norm_num)

/-! ## C7 / C10: deduplication in the render pass -/

lemma drawEntry_fst (members : List Member) (rels : List Relationship)
    (r : Relationship) (entry : Relationship × ((ℚ × ℚ) × (ℚ × ℚ)))
    (h : drawEntry members rels r = some entry) : entry.1 = r := by
  unfold drawEntry at h
  rcases hf : members.find? (fun m => m.id == r.fromMemberId) with _ | fm <;>
    rcases ht : members.find? (fun m => m.id == r.toMemberId) with _ | tm <;>
      rw [hf, ht] at h <;> simp at h
  rw [← h]

lemma drawEntry_isSome (members : List Member) (rels : List Relationship)
    (r : Relationship) :
    (drawEntry members rels r).isSome = resolvable members r := by
  unfold drawEntry resolvable
  rcases hf : members.find? (fun m => m.id == r.fromMemberId) with _ | fm <;>
    rcases ht : members.find? (fun m => m.id == r.toMemberId) with _ | tm <;>
      rw [hf, ht] <;> simp

lemma renderFold_filter (members : List Member) (rels : List Relationship)
    (K : String × Nat × Nat) :
    ∀ (l : List Relationship)
      (acc : List (Relationship × ((ℚ × ℚ) × (ℚ × ℚ))) × List (String × Nat × Nat)),
      acc.2 = acc.1.map (fun e => relKey e.1) →
      ((l.foldl (renderStep members rels) acc).1.filter
          (fun e => relKey e.1 == K)) =
        acc.1.filter (fun e => relKey e.1 == K) ++
          (if acc.2.contains K then []
           else ((l.find? (fun r => relKey r == K && resolvable members r)).bind
                  (fun r => drawEntry members rels r)).toList) := by
  intro l
  induction l with
  | nil =>
    intro acc hinv
    simp [List.find?]
  | cons r l' ih =>
    intro acc hinv
    rw [List.foldl_cons]
    rcases hde : drawEntry members rels r with _ | entry
    · -- unresolvable record: the step is the identity and find? skips it
      have hres : resolvable members r = false := by
        have := drawEntry_isSome members rels r
        rw [hde] at this
        exact this.symm
      have hstep : renderStep members rels acc r = acc := by
        unfold renderStep
        rw [hde]
      have hfind : List.find?
          (fun x => relKey x == K && resolvable members x) (r :: l') =
          List.find? (fun x => relKey x == K && resolvable members x) l' := by
        simp [List.find?, hres]
      rw [hstep, ih acc hinv, hfind]
    · have hres : resolvable members r = true := by
        have := drawEntry_isSome members rels r
        rw [hde] at this
        exact this.symm
      by_cases hkey : acc.2.contains (relKey r)
      · -- key already drawn: step is the identity
        have hk' : relKey r ∈ acc.2 := by simpa using hkey
        have hstep : renderStep members rels acc r = acc := by
          simp [renderStep, hde, hk']
        rw [hstep, ih acc hinv]
        by_cases hrk : relKey r = K
        · subst hrk
          rw [if_pos hkey, if_pos hkey]
        · have hfind : List.find?
              (fun x => relKey x == K && resolvable members x) (r :: l') =
              List.find? (fun x => relKey x == K && resolvable members x) l' := by
            have hb : (relKey r == K) = false := beq_eq_false_iff_ne.mpr hrk
            simp [List.find?, hb]
          rw [hfind]
      · -- new key: the record is drawn
        have hk' : relKey r ∉ acc.2 := by simpa using hkey
        have hstep : renderStep members rels acc r =
            (acc.1 ++ [entry], acc.2 ++ [relKey r]) := by
          simp [renderStep, hde, hk']
        have hfst : entry.1 = r := drawEntry_fst members rels r entry hde
        have hinv' : (acc.1 ++ [entry], acc.2 ++ [relKey r]).2 =
            (acc.1 ++ [entry], acc.2 ++ [relKey r]).1.map (fun e => relKey e.1) := by
          simp [hinv, hfst]
        rw [hstep, ih _ hinv']
        by_cases hrk : relKey r = K
        · subst hrk
          have hfind : List.find?
              (fun x => relKey x == relKey r && resolvable members x) (r :: l') =
              some r := by
            simp [List.find?, hres]
          rw [hfind, if_neg hkey]
          have hc : ((acc.2 ++ [relKey r]).contains (relKey r)) = true := by simp
          rw [if_pos hc]
          simp [List.filter_append, hfst, hde]
        · have hfind : List.find?
              (fun x => relKey x == K && resolvable members x) (r :: l') =
              List.find? (fun x => relKey x == K && resolvable members x) l' := by
            have hb : (relKey r == K) = false := beq_eq_false_iff_ne.mpr hrk
            simp [List.find?, hb]
          rw [hfind]
          have hc2 : ((acc.2 ++ [relKey r]).contains K) = acc.2.contains K := by
            simp [List.elem_eq_mem]
            exact fun h => absurd h.symm hrk
          rw [hc2]
          have hfil : List.filter (fun e => relKey e.1 == K) (acc.1 ++ [entry]) =
              List.filter (fun e => relKey e.1 == K) acc.1 := by
            have hone : List.filter (fun e => relKey e.1 == K) [entry] = [] := by
              simp [hfst, beq_eq_false_iff_ne.mpr hrk]
            rw [List.filter_append, hone, List.append_nil]
          rw [hfil]

lemma renderPass_filter (members : List Member) (rels : List Relationship)
    (K : String × Nat × Nat) :
    (renderPass members rels).filter (fun e => relKey e.1 == K) =
      ((rels.find? (fun r => relKey r == K && resolvable members r)).bind
        (fun r => drawEntry members rels r)).toList := by
  have h := renderFold_filter members rels K rels ([], []) rfl
  simpa [renderPass] using h

/-- C7: edges are deduplicated by the unordered key (type, min id, max id):
whenever the snapshot contains spouse records (a → b) and (b → a) and both
members exist, exactly one spouse line between a and b is drawn. -/
theorem claim_C7_dedup_unordered (members : List Member) (rels : List Relationship)
    (a b : Nat)
    (hab : ∃ r ∈ rels, r.type = "spouse" ∧ r.fromMemberId = a ∧ r.toMemberId = b)
    (_hba : ∃ r ∈ rels, r.type = "spouse" ∧ r.fromMemberId = b ∧ r.toMemberId = a)
    (ha : (members.find? (fun m => m.id == a)).isSome = true)
    (hb : (members.find? (fun m => m.id == b)).isSome = true) :
    ((renderPass members rels).filter
      (fun e => relKey e.1 == ("spouse", min a b, max a b))).length = 1 := by
  obtain ⟨r, hmem, hty, hfrom, hto⟩ := hab
  have hpred : (fun x => relKey x == ("spouse", min a b, max a b) &&
      resolvable members x) r = true := by
    simp [relKey, resolvable, hty, hfrom, hto, ha, hb]
  have hsome := find?_isSome_of_mem
    (fun x => relKey x == ("spouse", min a b, max a b) && resolvable members x)
    rels r hmem hpred
  obtain ⟨r0, hr0⟩ := Option.isSome_iff_exists.mp hsome
  have hp0 := List.find?_some hr0
  have hres0 : resolvable members r0 = true := by
    simp only [Bool.and_eq_true] at hp0
    exact hp0.2
  have hde0 : (drawEntry members rels r0).isSome = true := by
    rw [drawEntry_isSome]; exact hres0
  obtain ⟨entry, hentry⟩ := Option.isSome_iff_exists.mp hde0
  rw [renderPass_filter, hr0]
  simp [hentry]

/-- C7 witness: the two opposite spouse records between members 1 and 2
produce exactly one drawn spouse line. -/
theorem claim_C7_witness :
    ((renderPass [⟨1, 0, 0⟩, ⟨2, 0, 0⟩] [spRel 1 2 none, spRel 2 1 none]).filter
      (fun e => relKey e.1 == ("spouse", min 1 2, max 1 2))).length = 1 :=
  claim_C7_dedup_unordered [⟨1, 0, 0⟩, ⟨2, 0, 0⟩] [spRel 1 2 none, spRel 2 1 none]
    1 2 ⟨spRel 1 2 none, by decide, rfl, rfl, rfl⟩
    ⟨spRel 2 1 none, by decide, rfl, rfl, rfl⟩ (by decide) (by decide)

/-- C10: the deduplication key is unordered even for the directed
parent-child type: when the list contains parent-child records (a → b) and
(b → a) and both members exist, exactly one line is drawn, namely the first
record in the relationship list whose key matches and whose endpoints
resolve; the reverse record is suppressed. -/
theorem claim_C10_reverse_suppressed (members : List Member)
    (rels : List Relationship) (a b : Nat) (r1 r2 : Relationship)
    (hm1 : r1 ∈ rels) (_hm2 : r2 ∈ rels)
    (ht1 : r1.type = "parent-child") (hf1 : r1.fromMemberId = a)
    (hto1 : r1.toMemberId = b)
    (_ht2 : r2.type = "parent-child") (_hf2 : r2.fromMemberId = b)
    (_hto2 : r2.toMemberId = a)
    (ha : (members.find? (fun m => m.id == a)).isSome = true)
    (hb : (members.find? (fun m => m.id == b)).isSome = true) :
    ∃ r0, rels.find? (fun r => relKey r == ("parent-child", min a b, max a b) &&
        resolvable members r) = some r0 ∧
      (renderPass members rels).filter
          (fun e => relKey e.1 == ("parent-child", min a b, max a b)) =
        (drawEntry members rels r0).toList ∧
      ((renderPass members rels).filter
          (fun e => relKey e.1 == ("parent-child", min a b, max a b))).length = 1 := by
  have hpred : (fun x => relKey x == ("parent-child", min a b, max a b) &&
      resolvable members x) r1 = true := by
    simp [relKey, resolvable, ht1, hf1, hto1, ha, hb]
  have hsome := find?_isSome_of_mem
    (fun x => relKey x == ("parent-child", min a b, max a b) && resolvable members x)
    rels r1 hm1 hpred
  obtain ⟨r0, hr0⟩ := Option.isSome_iff_exists.mp hsome
  have hp0 := List.find?_some hr0
  have hres0 : resolvable members r0 = true := by
    simp only [Bool.and_eq_true] at hp0
    exact hp0.2
  have hde0 : (drawEntry members rels r0).isSome = true := by
    rw [drawEntry_isSome]; exact hres0
  obtain ⟨entry, hentry⟩ := Option.isSome_iff_exists.mp hde0
  refine ⟨r0, hr0, ?_, ?_⟩
  · rw [renderPass_filter, hr0]
    simp
  · rw [renderPass_filter, hr0]
    simp [hentry]

/-- C10 witness: opposite parent-child records between members 1 and 2 draw
exactly one line. -/
theorem claim_C10_witness :
    ((renderPass [⟨1, 0, 0⟩, ⟨2, 0, 0⟩] [pcRel 1 2, pcRel 2 1]).filter
      (fun e => relKey e.1 == ("parent-child", min 1 2, max 1 2))).length = 1 := by
  obtain ⟨r0, h1, h2, h3⟩ := claim_C10_reverse_suppressed
    [⟨1, 0, 0⟩, ⟨2, 0, 0⟩] [pcRel 1 2, pcRel 2 1] 1 2 (pcRel 1 2) (pcRel 2 1)
    (by decide) (by decide) rfl rfl rfl rfl rfl rfl (by decide) (by decide)
  exact h3

/-! ## C8: dangling references -/

lemma find?_drop_middle {α : Type} (p : α → Bool) (r : α) (hr : p r = false) :
    ∀ (l1 l2 : List α), (l1 ++ r :: l2).find? p = (l1 ++ l2).find? p := by
  intro l1 l2
  induction l1 with
  | nil => simp [List.find?, hr]
  | cons a l1' ih =>
    by_cases ha : p a
    · simp [List.find?, ha]
    · simp only [Bool.not_eq_true] at ha
      simp [List.find?, ha, ih]

lemma parentsResolved_mem_members (members : List Member)
    (rels : List Relationship) (toM q : Member)
    (h : q ∈ parentsResolved members rels toM) : q ∈ members := by
  unfold parentsResolved at h
  obtain ⟨r', _, hfind⟩ := List.mem_filterMap.mp h
  exact List.mem_of_find?_eq_some hfind

lemma find?_id_isSome_of_mem (members : List Member) (q : Member)
    (hq : q ∈ members) :
    (members.find? (fun m => m.id == q.id)).isSome = true :=
  find?_isSome_of_mem (fun m => m.id == q.id) members q hq (by simp)

lemma parentsResolved_drop (members : List Member) (l1 l2 : List Relationship)
    (r : Relationship) (toM : Member)
    (hres : resolvable members r = false)
    (htm : (members.find? (fun m => m.id == toM.id)).isSome = true) :
    parentsResolved members (l1 ++ r :: l2) toM =
      parentsResolved members (l1 ++ l2) toM := by
  unfold parentsResolved
  by_cases hp : (r.type == "parent-child" && r.toMemberId == toM.id) = true
  · have hto : r.toMemberId = toM.id := by
      simp only [Bool.and_eq_true, beq_iff_eq] at hp
      exact hp.2
    have htfind : (members.find? (fun m => m.id == r.toMemberId)).isSome = true := by
      rw [hto]; exact htm
    have hffind : members.find? (fun m => m.id == r.fromMemberId) = none := by
      unfold resolvable at hres
      rcases Bool.and_eq_false_iff.mp hres with h | h
      · exact Option.not_isSome_iff_eq_none.mp (by simp [h])
      · rw [htfind] at h; cases h
    simp [List.filter_append, List.filter_cons, hp, List.filterMap_append,
      List.filterMap_cons, hffind]
  · simp only [Bool.not_eq_true] at hp
    simp [List.filter_append, List.filter_cons, hp, List.filterMap_append]

lemma spouseFind_drop (members : List Member) (l1 l2 : List Relationship)
    (r : Relationship) (q1 q2 : Member) (hq1 : q1 ∈ members) (hq2 : q2 ∈ members)
    (hres : resolvable members r = false) :
    (l1 ++ r :: l2).find? (fun s => s.type == "spouse" &&
        ((s.fromMemberId == q1.id && s.toMemberId == q2.id) ||
         (s.fromMemberId == q2.id && s.toMemberId == q1.id))) =
      (l1 ++ l2).find? (fun s => s.type == "spouse" &&
        ((s.fromMemberId == q1.id && s.toMemberId == q2.id) ||
         (s.fromMemberId == q2.id && s.toMemberId == q1.id))) := by
  refine find?_drop_middle _ r ?_ l1 l2
  by_contra hc
  simp only [Bool.not_eq_false, Bool.and_eq_true, Bool.or_eq_true, beq_iff_eq] at hc
  have : resolvable members r = true := by
    unfold resolvable
    rcases hc.2 with ⟨h1, h2⟩ | ⟨h1, h2⟩
    · rw [h1, h2]
      rw [find?_id_isSome_of_mem members q1 hq1, find?_id_isSome_of_mem members q2 hq2]
      rfl
    · rw [h1, h2]
      rw [find?_id_isSome_of_mem members q2 hq2, find?_id_isSome_of_mem members q1 hq1]
      rfl
  rw [this] at hres
  cases hres

lemma relAnchors_drop (members : List Member) (l1 l2 : List Relationship)
    (r : Relationship) (fm tm : Member) (s : Relationship)
    (hres : resolvable members r = false)
    (htm : (members.find? (fun m => m.id == tm.id)).isSome = true) :
    relAnchors members (l1 ++ r :: l2) fm tm s =
      relAnchors members (l1 ++ l2) fm tm s := by
  unfold relAnchors
  rw [parentsResolved_drop members l1 l2 r tm hres htm]
  rcases hpl : parentsResolved members (l1 ++ l2) tm with _ | ⟨q1, _ | ⟨q2, _ | ⟨q3, qs⟩⟩⟩
  · rfl
  · rfl
  · have hq1 : q1 ∈ members := by
      refine parentsResolved_mem_members members (l1 ++ l2) tm q1 ?_
      rw [hpl]; exact List.mem_cons_self _ _
    have hq2 : q2 ∈ members := by
      refine parentsResolved_mem_members members (l1 ++ l2) tm q2 ?_
      rw [hpl]; exact List.mem_cons_of_mem _ (List.mem_cons_self _ _)
    dsimp only
    rw [spouseFind_drop members l1 l2 r q1 q2 hq1 hq2 hres]
  · rfl

lemma drawEntry_none_of_unresolvable (members : List Member)
    (rels : List Relationship) (r : Relationship)
    (hres : resolvable members r = false) : drawEntry members rels r = none := by
  have h := drawEntry_isSome members rels r
  rw [hres] at h
  exact Option.not_isSome_iff_eq_none.mp (by simp [h])

lemma renderStep_drop (members : List Member) (l1 l2 : List Relationship)
    (r : Relationship) (hres : resolvable members r = false) :
    ∀ (acc : List (Relationship × ((ℚ × ℚ) × (ℚ × ℚ))) × List (String × Nat × Nat))
      (s : Relationship),
      renderStep members (l1 ++ r :: l2) acc s =
        renderStep members (l1 ++ l2) acc s := by
  intro acc s
  unfold renderStep drawEntry
  rcases hf : members.find? (fun m => m.id == s.fromMemberId) with _ | fm
  · rw [hf]
  · rcases ht : members.find? (fun m => m.id == s.toMemberId) with _ | tm
    · rw [hf, ht]
    · have htm : (members.find? (fun m => m.id == tm.id)).isSome = true := by
        have hid : tm.id = s.toMemberId := by
          have := List.find?_some ht
          simpa using this
        rw [hid, ht]; rfl
      rw [hf, ht]
      dsimp only
      rw [relAnchors_drop members l1 l2 r fm tm s hres htm]

lemma optmap_isSome {α β : Type} (g : α → β) (o : Option α) :
    (o.map g).isSome = o.isSome := by cases o <;> rfl

lemma find?_fst_map_isSome (f : Nat × List Nat → Nat × List Nat)
    (hf : ∀ e, (f e).1 = e.1) (k : Nat) :
    ∀ m : AdjMap, ((m.map f).find? (fun x => x.1 == k)).isSome =
      (m.find? (fun x => x.1 == k)).isSome := by
  intro m
  induction m with
  | nil => rfl
  | cons e m' ih =>
    rw [List.map_cons]
    have hpe : ((f e).1 == k) = (e.1 == k) := by rw [hf]
    rcases hk : (e.1 == k) with _ | _
    · simp only [List.find?, hpe, hk]
      exact ih
    · simp only [List.find?, hpe, hk]
      rfl

lemma mget_mpush_isSome (m : AdjMap) (k v k' : Nat) :
    (mget (mpush m k v) k').isSome = (mget m k').isSome := by
  unfold mget mpush
  rw [optmap_isSome, optmap_isSome]
  exact find?_fst_map_isSome _
    (fun e => by by_cases h : (e.1 == k) = true <;> simp [h]) k' m

lemma buildStep_keys (mp mp' : Maps) (r : Relationship)
    (h : buildStep mp r = some mp') :
    (∀ k, (mget mp'.children k).isSome = (mget mp.children k).isSome) ∧
    (∀ k, (mget mp'.parents k).isSome = (mget mp.parents k).isSome) ∧
    (∀ k, (mget mp'.spouses k).isSome = (mget mp.spouses k).isSome) := by
  unfold buildStep at h
  by_cases h1 : (r.type == "parent-child") = true
  · rw [if_pos h1] at h
    rcases hc : mget mp.children r.fromMemberId with _ | lc
    · rw [hc] at h; cases h
    · rw [hc] at h
      dsimp only at h
      rcases hp : mget mp.parents r.toMemberId with _ | lp
      · rw [hp] at h; cases h
      · rw [hp] at h
        obtain rfl := Option.some.inj h
        exact ⟨fun k => mget_mpush_isSome _ _ _ _,
               fun k => mget_mpush_isSome _ _ _ _,
               fun k => rfl⟩
  · rw [if_neg h1] at h
    by_cases h2 : (r.type == "spouse") = true
    · rw [if_pos h2] at h
      rcases hs1 : mget mp.spouses r.fromMemberId with _ | ls
      · rw [hs1] at h; cases h
      · rw [hs1] at h
        dsimp only at h
        rcases hs2 : mget (mpush mp.spouses r.fromMemberId r.toMemberId)
            r.toMemberId with _ | ls2
        · rw [hs2] at h; cases h
        · rw [hs2] at h
          obtain rfl := Option.some.inj h
          refine ⟨fun k => rfl, fun k => rfl, fun k => ?_⟩
          rw [mget_mpush_isSome, mget_mpush_isSome]
    · rw [if_neg h2] at h
      obtain rfl := Option.some.inj h
      exact ⟨fun k => rfl, fun k => rfl, fun k => rfl⟩

lemma buildFold_keys : ∀ (l : List Relationship) (mp mp' : Maps),
    l.foldlM buildStep mp = some mp' →
    (∀ k, (mget mp'.children k).isSome = (mget mp.children k).isSome) ∧
    (∀ k, (mget mp'.parents k).isSome = (mget mp.parents k).isSome) ∧
    (∀ k, (mget mp'.spouses k).isSome = (mget mp.spouses k).isSome) := by
  intro l
  induction l with
  | nil =>
    intro mp mp' h
    simp only [List.foldlM, Option.pure_def] at h
    obtain rfl := Option.some.inj h
    exact ⟨fun k => rfl, fun k => rfl, fun k => rfl⟩
  | cons r l' ih =>
    intro mp mp' h
    simp only [List.foldlM] at h
    rcases hb : buildStep mp r with _ | mp1
    · rw [hb] at h; cases h
    · rw [hb] at h
      simp only [Option.pure_def, Option.bind_eq_bind, Option.some_bind] at h
      obtain ⟨ihc, ihp, ihs⟩ := ih mp1 mp' h
      obtain ⟨bc, bp, bs⟩ := buildStep_keys mp mp1 r hb
      exact ⟨fun k => (ihc k).trans (bc k),
             fun k => (ihp k).trans (bp k),
             fun k => (ihs k).trans (bs k)⟩

lemma buildStep_none_pc (mp : Maps) (r : Relationship)
    (h1 : (r.type == "parent-child") = true)
    (h : (mget mp.children r.fromMemberId).isSome = false ∨
         (mget mp.parents r.toMemberId).isSome = false) :
    buildStep mp r = none := by
  unfold buildStep
  rw [if_pos h1]
  rcases hc : mget mp.children r.fromMemberId with _ | lc
  · rfl
  · dsimp only
    rcases h with h | h
    · rw [hc] at h; cases h
    · rcases hp : mget mp.parents r.toMemberId with _ | lp
      · rfl
      · rw [hp] at h; cases h

lemma buildStep_none_sp (mp : Maps) (r : Relationship)
    (h2 : (r.type == "spouse") = true)
    (h : (mget mp.spouses r.fromMemberId).isSome = false ∨
         (mget mp.spouses r.toMemberId).isSome = false) :
    buildStep mp r = none := by
  unfold buildStep
  have hne : (r.type == "parent-child") = false := by
    rw [beq_iff_eq.mp h2]; rfl
  rw [if_neg (by simp [hne]), if_pos h2]
  rcases hs1 : mget mp.spouses r.fromMemberId with _ | ls
  · rfl
  · dsimp only
    rcases h with h | h
    · rw [hs1] at h; cases h
    · rcases hs2 : mget (mpush mp.spouses r.fromMemberId r.toMemberId)
          r.toMemberId with _ | ls2
      · rfl
      · have hiso := mget_mpush_isSome mp.spouses r.fromMemberId r.toMemberId
          r.toMemberId
        rw [hs2, h] at hiso
        cases hiso

lemma mget_init_isSome (members : List Member) (k : Nat) :
    (mget (members.map (fun m => (m.id, ([] : List Nat)))) k).isSome =
      (members.find? (fun m => m.id == k)).isSome := by
  induction members with
  | nil => rfl
  | cons m ms ih =>
    by_cases hk : (m.id == k) = true
    · simp [mget, List.find?, hk]
    · simp only [Bool.not_eq_true] at hk
      simpa [mget, List.find?, hk] using ih

lemma buildMaps_dangling_none (members : List Member) (l1 l2 : List Relationship)
    (r : Relationship)
    (hty : r.type = "parent-child" ∨ r.type = "spouse")
    (hres : resolvable members r = false) :
    buildMaps members (l1 ++ r :: l2) = none := by
  unfold buildMaps
  rw [List.foldlM_append]
  rcases h1 : l1.foldlM buildStep
      ⟨members.map (fun m => (m.id, [])), members.map (fun m => (m.id, [])),
       members.map (fun m => (m.id, []))⟩ with _ | st
  · simp [h1]
  · obtain ⟨kc, kp, ks⟩ := buildFold_keys l1 _ st h1
    have hnone : buildStep st r = none := by
      unfold resolvable at hres
      rcases Bool.and_eq_false_iff.mp hres with hf | ht
      · rcases hty with hpc | hsp
        · refine buildStep_none_pc st r (by simp [hpc]) (Or.inl ?_)
          rw [kc, mget_init_isSome, hf]
        · refine buildStep_none_sp st r (by simp [hsp]) (Or.inl ?_)
          rw [ks, mget_init_isSome, hf]
      · rcases hty with hpc | hsp
        · refine buildStep_none_pc st r (by simp [hpc]) (Or.inr ?_)
          rw [kp, mget_init_isSome, ht]
        · refine buildStep_none_sp st r (by simp [hsp]) (Or.inr ?_)
          rw [ks, mget_init_isSome, ht]
    simp [h1, List.foldlM, hnone]

lemma buildMaps_other_skip (members : List Member) (l1 l2 : List Relationship)
    (r : Relationship)
    (h1 : r.type ≠ "parent-child") (h2 : r.type ≠ "spouse") :
    buildMaps members (l1 ++ r :: l2) = buildMaps members (l1 ++ l2) := by
  have hstep : ∀ mp, buildStep mp r = some mp := by
    intro mp
    unfold buildStep
    rw [if_neg (by simp [h1]), if_neg (by simp [h2])]
  unfold buildMaps
  rw [List.foldlM_append, List.foldlM_append]
  rcases h : l1.foldlM buildStep
      ⟨members.map (fun m => (m.id, [])), members.map (fun m => (m.id, [])),
       members.map (fun m => (m.id, []))⟩ with _ | st
  · simp [h]
  · simp [h, List.foldlM, hstep]

lemma renderPass_drop (members : List Member) (l1 l2 : List Relationship)
    (r : Relationship) (hres : resolvable members r = false) :
    renderPass members (l1 ++ r :: l2) = renderPass members (l1 ++ l2) := by
  unfold renderPass
  have h1 : (l1 ++ r :: l2).foldl (renderStep members (l1 ++ r :: l2)) ([], []) =
      (l1 ++ r :: l2).foldl (renderStep members (l1 ++ l2)) ([], []) :=
    List.foldl_ext _ _ _ (fun acc s _ => renderStep_drop members l1 l2 r hres acc s)
  have hskip : renderStep members (l1 ++ l2)
      (l1.foldl (renderStep members (l1 ++ l2)) ([], [])) r =
      l1.foldl (renderStep members (l1 ++ l2)) ([], []) := by
    unfold renderStep
    rw [drawEntry_none_of_unresolvable members (l1 ++ l2) r hres]
  rw [h1, List.foldl_append, List.foldl_append, List.foldl_cons, hskip]

/-- C8 (counterexample): with members {1, 2} and records
[parent-child 1 → 2, parent-child 5 → 1] (5 matches no member), the layout
pass positions nobody — the map-building loop throws on the dangling record —
whereas without the dangling record members 1 and 2 are positioned.  This
contradicts the claim that only the dangling edge is dropped while all other
members are still positioned. -/
theorem claim_C8_cex :
    autoAlignTyped dangMembers dangRels = none ∧
    autoAlignTyped dangMembers [pcRel 1 2] = some [(2, (0, 208)), (1, (0, 0))] := by
  constructor
  · have h : buildMaps dangMembers dangRels = none := by decide
    simp only [autoAlignTyped, h]
  · have hmp : buildMaps dangMembers [pcRel 1 2] =
        some ⟨[(1, [2]), (2, [])], [(1, []), (2, [1])], [(1, []), (2, [])]⟩ := by
      decide
    have hg1 : getSpouseGroup [(1, []), (2, [])] 4 1 = some [1] := by decide
    have hg2 : getSpouseGroup [(1, []), (2, [])] 4 2 = some [2] := by decide
    simp only [autoAlignTyped, hmp, fuelOf]
    norm_num [dangMembers, hg1, hg2, mget, mgetD, layoutUnitFuel,
      sharedChildren, dedupFirst, minQ, maxQ, posX, posY, posMem,
      List.foldlM, List.enum, List.enumFrom]

/-- C8 (amended): a relationship whose endpoint matches no member is dropped
from rendering while every other record is still drawn (the render pass over
the list with the dangling record inserted equals the pass without it); but
in auto-align, a dangling parent-child or spouse record aborts the whole
layout pass (the `.push` on an undefined record entry throws), so nothing is
positioned; dangling records of any other type are ignored by the layout. -/
theorem claim_C8_amended :
    (∀ (members : List Member) (l1 l2 : List Relationship) (r : Relationship),
      resolvable members r = false →
      renderPass members (l1 ++ r :: l2) = renderPass members (l1 ++ l2)) ∧
    (∀ (members : List Member) (l1 l2 : List Relationship) (r : Relationship),
      (r.type = "parent-child" ∨ r.type = "spouse") →
      resolvable members r = false →
      autoAlignTyped members (l1 ++ r :: l2) = none) ∧
    (∀ (members : List Member) (l1 l2 : List Relationship) (r : Relationship),
      r.type ≠ "parent-child" → r.type ≠ "spouse" →
      autoAlignTyped members (l1 ++ r :: l2) = autoAlignTyped members (l1 ++ l2)) := by
  refine ⟨fun members l1 l2 r hres => renderPass_drop members l1 l2 r hres,
          fun members l1 l2 r hty hres => ?_, fun members l1 l2 r h1 h2 => ?_⟩
  · have h := buildMaps_dangling_none members l1 l2 r hty hres
    simp only [autoAlignTyped, h]
  · have h := buildMaps_other_skip members l1 l2 r h1 h2
    simp only [autoAlignTyped, h]

/-- C8 witness: concrete instances of the three amended statements. -/
theorem claim_C8_witness :
    renderPass dangMembers ([pcRel 1 2] ++ pcRel 5 1 :: []) =
      renderPass dangMembers ([pcRel 1 2] ++ []) ∧
    autoAlignTyped dangMembers ([pcRel 1 2] ++ pcRel 5 1 :: []) = none ∧
    autoAlignTyped dangMembers
        ([] ++ (⟨7, 9, "guardian", none⟩ : Relationship) :: []) =
      autoAlignTyped dangMembers ([] ++ []) :=
  ⟨claim_C8_amended.1 dangMembers [pcRel 1 2] [] (pcRel 5 1) (by decide),
   claim_C8_amended.2.1 dangMembers [pcRel 1 2] [] (pcRel 5 1)
     (Or.inl rfl) (by decide),
   claim_C8_amended.2.2 dangMembers [] [] ⟨7, 9, "guardian", none⟩
     (by decide) (by decide)⟩

/-! ## C2: the shared-children rule -/

lemma find?_mpush (k v p : Nat) : ∀ m : AdjMap,
    (mpush m k v).find? (fun x => x.1 == p) =
      (m.find? (fun x => x.1 == p)).map
        (fun e => if e.1 == k then (e.1, e.2 ++ [v]) else e) := by
  intro m
  induction m with
  | nil => rfl
  | cons e m' ih =>
    have hfe : ((if e.1 == k then (e.1, e.2 ++ [v]) else e).1 == p) =
        (e.1 == p) := by
      by_cases h : (e.1 == k) = true <;> simp [h]
    rcases hp : (e.1 == p) with _ | _
    · simp only [mpush, List.map_cons, List.find?, hfe, hp]
      exact ih
    · simp only [mpush, List.map_cons, List.find?, hfe, hp]
      rfl

lemma mget_mpush (m : AdjMap) (k v p : Nat) :
    mget (mpush m k v) p =
      if p = k then (mget m k).map (fun l => l ++ [v]) else mget m p := by
  unfold mget
  rw [find?_mpush k v p m]
  rcases hf : m.find? (fun x => x.1 == p) with _ | e
  · by_cases hpk : p = k
    · subst hpk
      rw [if_pos rfl, hf]
      rfl
    · rw [if_neg hpk, hf]
      rfl
  · have hep : e.1 = p := by
      have := List.find?_some hf
      simpa using this
    by_cases hpk : p = k
    · subst hpk
      rw [if_pos rfl, hf]
      simp [hep]
    · rw [if_neg hpk, hf]
      have hek : ¬ e.1 = k := by rw [hep]; exact hpk
      simp [hek]

lemma mgetD_mpush (m : AdjMap) (k v p : Nat) (lk : List Nat)
    (hk : mget m k = some lk) :
    mgetD (mpush m k v) p = if p = k then mgetD m k ++ [v] else mgetD m p := by
  unfold mgetD
  rw [mget_mpush m k v p]
  by_cases hpk : p = k
  · rw [if_pos hpk, if_pos hpk, hk]
    rfl
  · rw [if_neg hpk, if_neg hpk]

lemma buildStep_mgetD (mp mp1 : Maps) (r : Relationship)
    (h : buildStep mp r = some mp1) :
    (∀ p, mgetD mp1.children p = mgetD mp.children p ++
      (if r.type == "parent-child" && r.fromMemberId == p then [r.toMemberId]
       else [])) ∧
    (∀ c, mgetD mp1.parents c = mgetD mp.parents c ++
      (if r.type == "parent-child" && r.toMemberId == c then [r.fromMemberId]
       else [])) := by
  unfold buildStep at h
  by_cases h1 : (r.type == "parent-child") = true
  · rw [if_pos h1] at h
    rcases hc : mget mp.children r.fromMemberId with _ | lc
    · rw [hc] at h; cases h
    · rw [hc] at h
      dsimp only at h
      rcases hp : mget mp.parents r.toMemberId with _ | lp
      · rw [hp] at h; cases h
      · rw [hp] at h
        obtain rfl := Option.some.inj h
        constructor
        · intro p
          rw [mgetD_mpush mp.children r.fromMemberId r.toMemberId p lc hc]
          by_cases hpf : p = r.fromMemberId
          · rw [if_pos hpf, hpf]
            simp [h1]
          · rw [if_neg hpf]
            have : (r.fromMemberId == p) = false :=
              beq_eq_false_iff_ne.mpr (fun hh => hpf hh.symm)
            simp [this]
        · intro c
          rw [mgetD_mpush mp.parents r.toMemberId r.fromMemberId c lp hp]
          by_cases hct : c = r.toMemberId
          · rw [if_pos hct, hct]
            simp [h1]
          · rw [if_neg hct]
            have : (r.toMemberId == c) = false :=
              beq_eq_false_iff_ne.mpr (fun hh => hct hh.symm)
            simp [this]
  · rw [if_neg h1] at h
    have h1' : (r.type == "parent-child") = false := by
      simpa using h1
    by_cases h2 : (r.type == "spouse") = true
    · rw [if_pos h2] at h
      rcases hs1 : mget mp.spouses r.fromMemberId with _ | ls
      · rw [hs1] at h; cases h
      · rw [hs1] at h
        dsimp only at h
        rcases hs2 : mget (mpush mp.spouses r.fromMemberId r.toMemberId)
            r.toMemberId with _ | ls2
        · rw [hs2] at h; cases h
        · rw [hs2] at h
          obtain rfl := Option.some.inj h
          exact ⟨fun p => by simp [h1'], fun c => by simp [h1']⟩
    · rw [if_neg h2] at h
      obtain rfl := Option.some.inj h
      exact ⟨fun p => by simp [h1'], fun c => by simp [h1']⟩

lemma buildFold_char : ∀ (l : List Relationship) (mp mp' : Maps),
    l.foldlM buildStep mp = some mp' →
    (∀ p, mgetD mp'.children p = mgetD mp.children p ++ pcTargets l p) ∧
    (∀ c, mgetD mp'.parents c = mgetD mp.parents c ++ pcSources l c) := by
  intro l
  induction l with
  | nil =>
    intro mp mp' h
    simp only [List.foldlM, Option.pure_def] at h
    obtain rfl := Option.some.inj h
    exact ⟨fun p => by simp [pcTargets], fun c => by simp [pcSources]⟩
  | cons r l' ih =>
    intro mp mp' h
    simp only [List.foldlM] at h
    rcases hb : buildStep mp r with _ | mp1
    · rw [hb] at h; cases h
    · rw [hb] at h
      simp only [Option.pure_def, Option.bind_eq_bind, Option.some_bind] at h
      obtain ⟨ihc, ihp⟩ := ih mp1 mp' h
      obtain ⟨bc, bp⟩ := buildStep_mgetD mp mp1 r hb
      constructor
      · intro p
        rw [ihc p, bc p, List.append_assoc]
        congr 1
        unfold pcTargets
        by_cases hm : (r.type == "parent-child" && r.fromMemberId == p) = true
        · simp [List.filter_cons, hm]
        · simp only [Bool.not_eq_true] at hm
          simp [List.filter_cons, hm]
      · intro c
        rw [ihp c, bp c, List.append_assoc]
        congr 1
        unfold pcSources
        by_cases hm : (r.type == "parent-child" && r.toMemberId == c) = true
        · simp [List.filter_cons, hm]
        · simp only [Bool.not_eq_true] at hm
          simp [List.filter_cons, hm]

lemma mgetD_init (members : List Member) (p : Nat) :
    mgetD (members.map (fun m => (m.id, ([] : List Nat)))) p = [] := by
  induction members with
  | nil => rfl
  | cons m ms ih =>
    by_cases hk : (m.id == p) = true
    · simp [mgetD, mget, List.find?, hk]
    · simp only [Bool.not_eq_true] at hk
      simpa [mgetD, mget, List.find?, hk] using ih

lemma buildMaps_char (members : List Member) (rels : List Relationship)
    (mp : Maps) (h : buildMaps members rels = some mp) :
    (∀ p, mgetD mp.children p = pcTargets rels p) ∧
    (∀ c, mgetD mp.parents c = pcSources rels c) := by
  unfold buildMaps at h
  obtain ⟨hc, hp⟩ := buildFold_char rels _ mp h
  exact ⟨fun p => by rw [hc p]; simp [mgetD_init],
         fun c => by rw [hp c]; simp [mgetD_init]⟩

lemma pcTargets_sources (rels : List Relationship) (p c : Nat) :
    c ∈ pcTargets rels p ↔ p ∈ pcSources rels c := by
  unfold pcTargets pcSources
  simp only [List.mem_map, List.mem_filter, Bool.and_eq_true, beq_iff_eq]
  constructor
  · rintro ⟨r, ⟨hr, hty, hf⟩, ht⟩
    exact ⟨r, ⟨hr, hty, ht⟩, hf⟩
  · rintro ⟨r, ⟨hr, hty, ht⟩, hf⟩
    exact ⟨r, ⟨hr, hty, hf⟩, ht⟩

lemma dedupFirst_mem (x : Nat) (l : List Nat) : x ∈ dedupFirst l ↔ x ∈ l := by
  have key : ∀ (l acc : List Nat),
      x ∈ l.foldl (fun acc y => if acc.contains y then acc else acc ++ [y]) acc ↔
        x ∈ acc ∨ x ∈ l := by
    intro l
    induction l with
    | nil => intro acc; simp
    | cons y ys ih =>
      intro acc
      rw [List.foldl_cons]
      by_cases hy : acc.contains y
      · rw [if_pos hy]
        rw [ih acc]
        have hym : y ∈ acc := by simpa using hy
        constructor
        · rintro (h | h)
          · exact Or.inl h
          · exact Or.inr (List.mem_cons_of_mem _ h)
        · rintro (h | h)
          · exact Or.inl h
          · rcases List.mem_cons.mp h with h' | h'
            · exact Or.inl (h' ▸ hym)
            · exact Or.inr h'
      · rw [if_neg hy]
        rw [ih (acc ++ [y])]
        simp only [List.mem_append, List.mem_singleton, List.mem_cons]
        tauto
  simpa [dedupFirst] using key l []

/-- C2: the shared-children rule of `layoutUnit`.  For a one-member cluster
the children are exactly the parent-child targets recorded out of that
member (in record order); for a larger cluster a child id is selected
exactly when every cluster member is recorded as one of that child's
parents. -/
theorem claim_C2_shared_children (members : List Member)
    (rels : List Relationship) (mp : Maps)
    (h : buildMaps members rels = some mp) :
    (∀ p, sharedChildren mp.children [p] = pcTargets rels p) ∧
    (∀ (ps : List Nat) (c : Nat), 1 < ps.length →
      (c ∈ sharedChildren mp.children ps ↔ ∀ p ∈ ps, p ∈ pcSources rels c)) := by
  obtain ⟨hc, hp⟩ := buildMaps_char members rels mp h
  constructor
  · intro p
    unfold sharedChildren
    simp only [List.length_singleton, List.headD_cons, beq_self_eq_true,
      if_true, reduceIte]
    exact hc p
  · intro ps c hlen
    unfold sharedChildren
    have h1 : (ps.length == 1) = false := by
      refine beq_eq_false_iff_ne.mpr ?_
      omega
    rw [if_neg (by simp [h1]), if_pos hlen, List.mem_filter]
    constructor
    · rintro ⟨_hmem, hall⟩
      intro p hps
      have hcm := List.all_eq_true.mp hall p hps
      have : c ∈ mgetD mp.children p := by simpa using hcm
      rw [hc p] at this
      exact (pcTargets_sources rels p c).mp this
    · intro hall
      have hne : ps ≠ [] := by
        intro h0
        rw [h0] at hlen
        simp at hlen
      obtain ⟨p0, hp0⟩ := List.exists_mem_of_ne_nil ps hne
      refine ⟨?_, ?_⟩
      · rw [dedupFirst_mem, List.mem_flatMap]
        refine ⟨p0, hp0, ?_⟩
        rw [hc p0]
        exact (pcTargets_sources rels p0 c).mpr (hall p0 hp0)
      · rw [List.all_eq_true]
        intro p hpsm
        have : c ∈ mgetD mp.children p := by
          rw [hc p]
          exact (pcTargets_sources rels p c).mpr (hall p hpsm)
        simpa using this

/-- C2 witness: with parent-child records 1 → 3 and 2 → 3, the singleton
cluster rule gives member 1's targets, and 3 qualifies as a shared child of
the cluster [1, 2]. -/
theorem claim_C2_witness :
    sharedChildren [(1, [3]), (2, [3]), (3, [])] [1] =
      pcTargets [pcRel 1 3, pcRel 2 3] 1 ∧
    3 ∈ sharedChildren [(1, [3]), (2, [3]), (3, [])] [1, 2] := by
  have h : buildMaps [⟨1, 0, 0⟩, ⟨2, 0, 0⟩, ⟨3, 0, 0⟩] [pcRel 1 3, pcRel 2 3] =
      some ⟨[(1, [3]), (2, [3]), (3, [])],
            [(1, []), (2, []), (3, [1, 2])],
            [(1, []), (2, []), (3, [])]⟩ := by decide
  exact ⟨(claim_C2_shared_children _ _ _ h).1 1,
         ((claim_C2_shared_children _ _ _ h).2 [1, 2] 3 (by norm_num)).mpr
           (by decide)⟩

/-! ## C9: the layout is a pure function of the snapshot, independent of
pre-existing positions -/

lemma reposition_init (members : List Member) (fx fy : Nat → ℚ) :
    (reposition members fx fy).map (fun m => (m.id, ([] : List Nat))) =
      members.map (fun m => (m.id, ([] : List Nat))) := by
  simp [reposition, List.map_map]

lemma buildMaps_reposition (members : List Member) (rels : List Relationship)
    (fx fy : Nat → ℚ) :
    buildMaps (reposition members fx fy) rels = buildMaps members rels := by
  unfold buildMaps
  rw [reposition_init]

lemma roots_reposition (members : List Member) (fx fy : Nat → ℚ) (mp : Maps) :
    (reposition members fx fy).filter (fun m => (mgetD mp.parents m.id).isEmpty) =
      reposition (members.filter (fun m => (mgetD mp.parents m.id).isEmpty))
        fx fy := by
  unfold reposition
  rw [List.filter_map]
  rfl

lemma foldlM_reposition (g : LSt → Nat → Option LSt) (fx fy : Nat → ℚ) :
    ∀ (l : List Member) (st : LSt),
      (reposition l fx fy).foldlM (fun st m => g st m.id) st =
        l.foldlM (fun st m => g st m.id) st := by
  intro l
  induction l with
  | nil => intro st; rfl
  | cons m ms ih =>
    intro st
    simp only [reposition, List.map_cons, List.foldlM]
    rcases hg : g st m.id with _ | st'
    · rfl
    · simp only [Option.pure_def, Option.bind_eq_bind, Option.some_bind]
      exact ih st'

/-- C9: the auto-align layout is a deterministic, pure function of the
member/relationship snapshot and ignores the members' pre-existing x/y
positions: replacing every member's coordinates by arbitrary values changes
neither the typed driver's position record nor the literal driver's
outcome. -/
theorem claim_C9_position_independent (members : List Member)
    (rels : List Relationship) (fx fy : Nat → ℚ) :
    autoAlignTyped (reposition members fx fy) rels =
      autoAlignTyped members rels ∧
    autoAlignJs (reposition members fx fy) rels = autoAlignJs members rels := by
  constructor
  · unfold autoAlignTyped
    rw [buildMaps_reposition]
    rcases h : buildMaps members rels with _ | mp
    · rfl
    · dsimp only
      have hfuel : fuelOf (reposition members fx fy) = fuelOf members := by
        simp [fuelOf, reposition]
      rw [hfuel, roots_reposition]
      congr 1
      exact foldlM_reposition
        (fun st id =>
          match getSpouseGroup mp.spouses (fuelOf members) id with
          | none => none
          | some group =>
            if group.any (fun id => posMem st.positions id) then some st
            else
              match layoutUnitFuel mp (fuelOf members) (fuelOf members)
                  group 0 st with
              | none => none
              | some (_, st') => some st') fx fy
        (members.filter (fun m => (mgetD mp.parents m.id).isEmpty)) ⟨[], 0⟩
  · unfold autoAlignJs
    rw [buildMaps_reposition]
    rcases h : buildMaps members rels with _ | mp
    · rfl
    · dsimp only
      rw [roots_reposition]
      unfold reposition
      have him : ∀ (l : List Member),
          (l.map (fun m => (⟨m.id, fx m.id, fy m.id⟩ : Member))).isEmpty =
            l.isEmpty := by
        intro l; cases l <;> rfl
      rw [him]
